import Mathlib

/-!
Verification development for the H2H-categories statistics engine
(`stats.py` and the transaction parsing pieces of `fantrax_client.py`).

Modelling conventions:
* provider-controlled numeric text is modelled by its parse result
  `Option ℚ` (`none` = the string fails `float(...)`);
* Python floats reachable in the engine are rationals extended with the
  two infinities (`XVal`); the only infinity the code introduces is
  `float("inf")` from the zero-innings penalty, and `-inf` from the
  lower-is-better sign flip;
* Python dicts are insertion-ordered association lists: assignment to an
  existing key replaces its value in place, assignment to a new key
  appends (`updList`);
* raised exceptions that escape a function are `Except.error`, exceptions
  caught by a `try/except: continue` are `Option.none` at the value that
  was being converted.
-/

namespace OneConstant

/-- Value space of the floats flowing through the simulator: rationals plus
the two IEEE infinities (no NaN arises: parsed values are modelled as
rationals and the code only introduces `float("inf")`). -/
inductive XVal where
  | ninf : XVal
  | num : ℚ → XVal
  | pinf : XVal
deriving DecidableEq

/-- Float negation, used by the lower-is-better sign flip `v1, v2 = -v1, -v2`. -/
def XVal.negv : XVal → XVal
  | .ninf => .pinf
  | .num q => .num (-q)
  | .pinf => .ninf

/-- Strict `<` on extended values (the IEEE order on `{-inf} ∪ ℚ ∪ {+inf}`). -/
def XVal.ltv : XVal → XVal → Bool
  | .ninf, .ninf => false
  | .ninf, .num _ => true
  | .ninf, .pinf => true
  | .num _, .ninf => false
  | .num a, .num b => decide (a < b)
  | .num _, .pinf => true
  | .pinf, _ => false

/-- Python-dict assignment `d[k] = v`: replace the value at the first
occurrence of `k` in place, else append `(k, v)` at the end. -/
def updList {α : Type} (d : List (String × α)) (k : String) (v : α) :
    List (String × α) :=
  match d with
  | [] => [(k, v)]
  | (k0, v0) :: rest =>
      if k0 = k then (k, v) :: rest else (k0, v0) :: updList rest k v

/-- Python `d.get(k, dflt)`. -/
def getD {α : Type} (d : List (String × α)) (k : String) (dflt : α) : α :=
  match d with
  | [] => dflt
  | (k0, v0) :: rest => if k0 = k then v0 else getD rest k dflt

/-- Python `d[k]` as an `Option` (also `k in d` via `isSome`). -/
def lookupKV {α : Type} (d : List (String × α)) (k : String) : Option α :=
  match d with
  | [] => none
  | (k0, v0) :: rest => if k0 = k then some v0 else lookupKV rest k

/-- `list(d.keys())`. -/
def keysOf {α : Type} (d : List (String × α)) : List String := d.map Prod.fst

/-- The module-level `LOWER_IS_BETTER` category set of `stats.py`. -/
def LOWER_IS_BETTER : List String :=
  ["Earned Run Average", "WHIP Ratio", "Walks Allowed Per Nine Innings",
   "Losses", "Home Runs Allowed"]

/-- `cat in LOWER_IS_BETTER`. -/
def isLIB (cat : String) : Bool := decide (cat ∈ LOWER_IS_BETTER)

/-- Result of one category comparison inside `_simulate_h2h`, seen from
team 1's side. -/
inductive Outcome where
  | win : Outcome
  | loss : Outcome
  | tie : Outcome
deriving DecidableEq

/-- One loop iteration of `_simulate_h2h`: lower-is-better categories have
both values negated, then `>` / `<` / tie in that order. -/
def catCompare (lib : Bool) (v1 v2 : XVal) : Outcome :=
  let w1 := if lib then v1.negv else v1
  let w2 := if lib then v2.negv else v2
  if w2.ltv w1 then .win else if w1.ltv w2 then .loss else .tie

/-- A collected per-team category map (value of `_collect_team_cats` for
one team). -/
abbrev Cats := List (String × XVal)

/-- Per-category outcomes of `_simulate_h2h(team1_cats, team2_cats)`:
iterate team 1's categories in insertion order; a category missing from
team 2's map defaults to `0.0` (`team2_cats.get(cat, 0.0)`). -/
def simulateList (c1 c2 : Cats) : List (String × Outcome) :=
  c1.map (fun p => (p.1, catCompare (isLIB p.1) p.2 (getD c2 p.1 (.num 0))))

/-- An aggregate won-lost-tied record (`{"wins": .., "losses": .., "ties": ..}`). -/
structure Rcd where
  wins : ℕ
  losses : ℕ
  ties : ℕ
deriving DecidableEq

def Rcd.zero : Rcd := ⟨0, 0, 0⟩

def Rcd.add (a b : Rcd) : Rcd :=
  ⟨a.wins + b.wins, a.losses + b.losses, a.ties + b.ties⟩

/-- The record credited to the second team of a pair: wins and losses
swapped, ties shared. -/
def Rcd.swap (r : Rcd) : Rcd := ⟨r.losses, r.wins, r.ties⟩

/-- `_simulate_h2h`'s `(wins, losses, ties)` counters for team 1. -/
def simulate_h2h (c1 c2 : Cats) : Rcd :=
  ⟨(simulateList c1 c2).countP (fun p => decide (p.2 = Outcome.win)),
   (simulateList c1 c2).countP (fun p => decide (p.2 = Outcome.loss)),
   (simulateList c1 c2).countP (fun p => decide (p.2 = Outcome.tie))⟩

/-- One assignment `team_cats[name][cat] = float(value) or 0.0`. -/
def parseStep (d : Cats) (p : String × Option ℚ) : Cats :=
  updList d p.1 (match p.2 with | some q => XVal.num q | none => XVal.num 0)

/-- The `try: float(info["value"]) except: 0.0` pass of `_collect_team_cats`:
every category of the side gets an entry, parse failures become `0.0`. -/
def parseSide (cats : List (String × Option ℚ)) : Cats :=
  cats.foldl parseStep []

/-- The `team_cats[name].get("Innings Pitched", 0) == 0` test. -/
def ipZero (d : Cats) : Bool :=
  decide (getD d "Innings Pitched" (XVal.num 0) = XVal.num 0)

/-- Zero-innings penalty: every lower-is-better category already present in
the team's map is coerced to `float("inf")`. -/
def applyPenalty (d : Cats) : Cats :=
  if ipZero d then
    d.map (fun p => if isLIB p.1 then (p.1, XVal.pinf) else p)
  else d

/-- One team's slice of `_collect_team_cats`: parse all categories, then
apply the zero-innings penalty. -/
def collectSide (cats : List (String × Option ℚ)) : Cats :=
  applyPenalty (parseSide cats)

/-- One matchup of a period, as produced by `FantraxClient.schedule()`:
two named sides, each side's category win/loss/tie counters (provider
counts) and its category values (modelled by their parse results). -/
structure Matchup where
  away_team_name : String
  home_team_name : String
  away_wins : ℕ
  away_losses : ℕ
  away_ties : ℕ
  home_wins : ℕ
  home_losses : ℕ
  home_ties : ℕ
  away_cats : List (String × Option ℚ)
  home_cats : List (String × Option ℚ)
  categories : List String
deriving DecidableEq

/-- One scoring period. -/
structure Period where
  period_num : ℕ
  name : String
  date_range : String
  matchups : List Matchup
deriving DecidableEq

/-- One matchup's two side assignments into the `team_cats` dict. -/
def collectStep (d : List (String × Cats)) (m : Matchup) : List (String × Cats) :=
  updList (updList d m.away_team_name (collectSide m.away_cats))
    m.home_team_name (collectSide m.home_cats)

/-- `_collect_team_cats(period)`: away then home side of each matchup, a
repeated team name overwriting its earlier map (dict assignment). -/
def collect_team_cats (p : Period) : List (String × Cats) :=
  p.matchups.foldl collectStep []

/-- `records[k]["wins"] += w` etc. on a `defaultdict` of zero records. -/
def bump (d : List (String × Rcd)) (k : String) (r : Rcd) :
    List (String × Rcd) :=
  updList d k ((getD d k Rcd.zero).add r)

/-- Inner pair loop `for t2 in teams[i+1:]`: credit `(w, l, t)` to `t1` and
`(l, w, t)` to `t2`. Iterating the entry list of `_collect_team_cats`
directly is the dict iteration `teams = list(team_cats.keys())` together
with the lookups `team_cats[t1]`, `team_cats[t2]` (keys are unique by
construction). -/
def pairInner (t1 : String) (c1 : Cats) :
    List (String × Cats) → List (String × Rcd) → List (String × Rcd)
  | [], d => d
  | (t2, c2) :: rest, d =>
      pairInner t1 c1 rest
        (bump (bump d t1 (simulate_h2h c1 c2)) t2 (simulate_h2h c1 c2).swap)

/-- Outer pair loop `for i, t1 in enumerate(teams)`. -/
def pairOuter :
    List (String × Cats) → List (String × Rcd) → List (String × Rcd)
  | [], d => d
  | (t1, c1) :: rest, d => pairOuter rest (pairInner t1 c1 rest d)

/-- `_all_play_record`'s period loop: `break` at the first period past the
cutoff, `continue` past periods with no matchups, simulate every unordered
pair of the period otherwise. -/
def allPlayAux (thr : ℕ) :
    List Period → List (String × Rcd) → List (String × Rcd)
  | [], d => d
  | p :: rest, d =>
      if thr < p.period_num then d
      else
        allPlayAux thr rest
          (if p.matchups = [] then d else pairOuter (collect_team_cats p) d)

/-- The accumulated (unsorted) all-play records of `_all_play_record`. -/
def allPlayRecords (schedule : List Period) (thr : ℕ) :
    List (String × Rcd) :=
  allPlayAux thr schedule []

/-- Stable insertion keeping a descending key order: the inserted (later)
element goes after every strictly greater key and before an equal one. -/
def insertDesc {α K : Type} [LinearOrder K] (key : α → K) (a : α) :
    List α → List α
  | [] => [a]
  | b :: bs =>
      if key a < key b then b :: insertDesc key a bs else a :: b :: bs

/-- Python's stable `sorted(l, key=key, reverse=True)`. -/
def sortDesc {α K : Type} [LinearOrder K] (key : α → K) : List α → List α
  | [] => []
  | a :: as => insertDesc key a (sortDesc key as)

/-- Stable insertion keeping an ascending key order. -/
def insertAsc {α K : Type} [LinearOrder K] (key : α → K) (a : α) :
    List α → List α
  | [] => [a]
  | b :: bs =>
      if key b < key a then b :: insertAsc key a bs else a :: b :: bs

/-- Python's stable `sorted(l, key=key)`. -/
def sortAsc {α K : Type} [LinearOrder K] (key : α → K) : List α → List α
  | [] => []
  | a :: as => insertAsc key a (sortAsc key as)

/-- Floor of a rational (numerator euclidean-divided by the positive
denominator, i.e. real floor). -/
def ratFloor (q : ℚ) : ℤ := Int.fdiv q.num (q.den : ℤ)

/-- Exact rational division, written via `Rat.divInt` (proved equal to
`a / b` below) so that concrete evaluations reduce in the kernel. -/
def ratDiv (a b : ℚ) : ℚ :=
  Rat.divInt (a.num * (b.den : ℤ)) ((a.den : ℤ) * b.num)

/-- Exact rational subtraction via `Rat.divInt` (proved equal to `a - b`
below). -/
def ratSub (a b : ℚ) : ℚ :=
  Rat.divInt (a.num * (b.den : ℤ) - b.num * (a.den : ℤ))
    ((a.den : ℤ) * (b.den : ℤ))

/-- The win-percentage sort key of `_all_play_record`:
`wins / max(1, wins + losses + ties)` (float division modelled exactly). -/
def pctKey (r : Rcd) : ℚ :=
  ratDiv (r.wins : ℚ) ((max 1 (r.wins + r.losses + r.ties) : ℕ) : ℚ)

/-- `_all_play_record(schedule, through_period)`: the records dict sorted by
win percentage, descending, stably. -/
def all_play_record (schedule : List Period) (thr : ℕ) :
    List (String × Rcd) :=
  sortDesc (fun p => pctKey p.2) (allPlayRecords schedule thr)

/-- `_weekly_all_play`'s record accumulation (single period, fresh records). -/
def weeklyRecords (p : Period) : List (String × Rcd) :=
  pairOuter (collect_team_cats p) []

/-- `_weekly_all_play(period)`: this week's records sorted by wins. -/
def weekly_all_play (p : Period) : List (String × Rcd) :=
  sortDesc (fun q => q.2.wins) (weeklyRecords p)

/-- One parsed standings row (`FantraxClient._parse_standings`). -/
structure SRow where
  rank : ℤ
  team_name : String
  wins : ℕ
  losses : ℕ
  ties : ℕ
deriving DecidableEq

/-- Python `round` on the exact rational quotient: nearest integer, halves
to even. The source rounds a float quotient of two small integers; such a
float rounds to the same integer as the exact rational. -/
def pyRound (q : ℚ) : ℤ :=
  let f := ratFloor q
  let r := ratSub q (f : ℚ)
  if r < mkRat 1 2 then f
  else if mkRat 1 2 < r then f + 1
  else if f % 2 = 0 then f else f + 1

/-- One value of the `luck` dict built by `_luck_rating` (float fields
modelled as exact rationals). -/
structure LuckEntry where
  actual_pct : ℚ
  all_play_pct : ℚ
  diff : ℚ
  games_back : ℤ
  actual_record : String
  all_play_record : String
deriving DecidableEq

/-- The `luck[name] = {...}` body of `_luck_rating` for one standings row. -/
def mkLuckEntry (s : SRow) (numOpp : ℕ) (ap : Rcd) : LuckEntry :=
  let actualPct : ℚ :=
    ratDiv (s.wins : ℚ) ((max 1 (s.wins + s.losses + s.ties) : ℕ) : ℚ)
  let apPct : ℚ :=
    ratDiv (ap.wins : ℚ) ((max 1 (ap.wins + ap.losses + ap.ties) : ℕ) : ℚ)
  let dispW := pyRound (ratDiv (ap.wins : ℚ) (numOpp : ℚ))
  let dispL := pyRound (ratDiv (ap.losses : ℚ) (numOpp : ℚ))
  let dispT := pyRound (ratDiv (ap.ties : ℚ) (numOpp : ℚ))
  { actual_pct := actualPct
    all_play_pct := apPct
    diff := ratSub actualPct apPct
    games_back := (s.wins : ℤ) - dispW
    actual_record :=
      toString s.wins ++ "-" ++ toString s.losses ++ "-" ++ toString s.ties
    all_play_record :=
      toString dispW ++ "-" ++ toString dispL ++ "-" ++ toString dispT }

/-- The `luck` dict of `_luck_rating`: one entry per standings row whose
team appears in the all-play record, in standings order. -/
def luckList (standings : List SRow) (schedule : List Period) (thr : ℕ) :
    List (String × LuckEntry) :=
  let ap := all_play_record schedule thr
  let numOpp := max 1 (standings.length - 1)
  standings.foldl
    (fun acc s =>
      match lookupKV ap s.team_name with
      | some r => updList acc s.team_name (mkLuckEntry s numOpp r)
      | none => acc)
    []

/-- `_luck_rating`: `(luckiest, unluckiest)` = first and last element of the
luck dict stably sorted by `games_back`, descending. -/
def luck_rating (standings : List SRow) (schedule : List Period) (thr : ℕ) :
    Option (String × LuckEntry) × Option (String × LuckEntry) :=
  ((sortDesc (fun q => q.2.games_back) (luckList standings schedule thr)).head?,
   (sortDesc (fun q => q.2.games_back) (luckList standings schedule thr)).getLast?)

/-- First element of a list attaining the maximal key. -/
def firstArgmax {α K : Type} [LinearOrder K] (key : α → K) :
    List α → Option α
  | [] => none
  | a :: as =>
      match firstArgmax key as with
      | none => some a
      | some b => if key a < key b then some b else some a

/-- Last element of a list attaining the minimal key. -/
def lastArgmin {α K : Type} [LinearOrder K] (key : α → K) :
    List α → Option α
  | [] => none
  | a :: as =>
      match lastArgmin key as with
      | none => some a
      | some b => if key a < key b then some a else some b

/-- Modelled from the spec's words, for comparison: the unluckiest-team
tie-break the spec asks for, "the one appearing first in standings order"
among the teams with the least key. -/
def firstArgmin {α K : Type} [LinearOrder K] (key : α → K) :
    List α → Option α
  | [] => none
  | a :: as =>
      match firstArgmin key as with
      | none => some a
      | some b => if key b < key a then some b else some a

/-- The completedness test of `_latest_completed`: matchups present and the
first matchup's away win+loss+tie total non-zero. -/
def completedFirst (p : Period) : Bool :=
  match p.matchups with
  | [] => false
  | m :: _ => decide (0 < m.away_wins + m.away_losses + m.away_ties)

/-- One loop step of `_latest_completed`. -/
def latestStep (acc : Option Period) (p : Period) : Option Period :=
  if completedFirst p then some p else acc

/-- `_latest_completed(schedule)`: the last period with a scored first
matchup, scanning in schedule order. -/
def latest_completed (schedule : List Period) : Option Period :=
  schedule.foldl latestStep none

/-- The target-period resolution of `compute_weekly_stats` (lines 21-24):
auto-detect when no period number is given, else the first schedule entry
with that period number. -/
def resolveTarget (schedule : List Period) : Option ℕ → Option Period
  | none => latest_completed schedule
  | some n => schedule.find? (fun p => p.period_num == n)

/-- The aggregator's error decision (line 26,
`if not period or not period["matchups"]`): `true` means the
`{"error": "No completed period found"}` return. -/
def weeklyError (schedule : List Period) (target : Option ℕ) : Bool :=
  match resolveTarget schedule target with
  | none => true
  | some p => p.matchups.isEmpty

/-- One `movement[...] = prev - rank` assignment of `_standings_movement`. -/
def moveStep (prevRanks : List (String × ℤ)) (acc : List (String × ℤ))
    (s : SRow) : List (String × ℤ) :=
  updList acc s.team_name (getD prevRanks s.team_name s.rank - s.rank)

/-- `_standings_movement(current, previous)`: `{}` when previous standings
are absent or empty; otherwise `prev_rank - rank` per current team, with a
team missing from the previous standings defaulting to its current rank. -/
def standings_movement (current : List SRow) (previous : Option (List SRow)) :
    List (String × ℤ) :=
  match previous with
  | none => []
  | some prev =>
      if prev = [] then []
      else
        current.foldl
          (moveStep (prev.foldl (fun acc s => updList acc s.team_name s.rank) []))
          []

/-- A parsed transaction group (`FantraxClient._parse_transactions`):
team name, free-text date, and whether a player was added (`added` set). -/
structure Txn where
  team_name : String
  date : Option String
  added : Bool
deriving DecidableEq

/-- A calendar date (the date part of a `datetime`). -/
structure Date where
  year : ℕ
  month : ℕ
  day : ℕ
deriving DecidableEq

/-- `datetime` comparison restricted to dates (times compare after dates;
see `mostTx` for why date-level comparison is exact here). -/
def dateLe (a b : Date) : Bool :=
  if a.year < b.year then true
  else if b.year < a.year then false
  else if a.month < b.month then true
  else if b.month < a.month then false
  else decide (a.day ≤ b.day)

def weekdayNames : List (List Char) :=
  ["mon".toList, "tue".toList, "wed".toList, "thu".toList,
   "fri".toList, "sat".toList, "sun".toList]

def monthNames : List (String × ℕ) :=
  [("jan", 1), ("feb", 2), ("mar", 3), ("apr", 4), ("may", 5), ("jun", 6),
   ("jul", 7), ("aug", 8), ("sep", 9), ("oct", 10), ("nov", 11), ("dec", 12)]

/-- Consume an exact character sequence. -/
def dropPrefixChars : List Char → List Char → Option (List Char)
  | [], cs => some cs
  | _ :: _, [] => none
  | k :: ks, c :: cs => if c = k then dropPrefixChars ks cs else none

/-- First keyword of the list that is a prefix of the input (`%a`). -/
def matchAnyKeyword : List (List Char) → List Char → Option (List Char)
  | [], _ => none
  | k :: ks, cs =>
      match dropPrefixChars k cs with
      | some rest => some rest
      | none => matchAnyKeyword ks cs

/-- First month abbreviation that is a prefix of the input (`%b`). -/
def matchMonth : List (String × ℕ) → List Char → Option (ℕ × List Char)
  | [], _ => none
  | (k, n) :: ks, cs =>
      match dropPrefixChars k.toList cs with
      | some rest => some (n, rest)
      | none => matchMonth ks cs

/-- A literal space in a `strptime` format compiles to `\s+`: at least one
whitespace character, consumed greedily. -/
def skipWs1 : List Char → Option (List Char)
  | [] => none
  | c :: cs =>
      if c.isWhitespace then some (cs.dropWhile Char.isWhitespace) else none

def digitVal (c : Char) : ℕ := c.toNat - '0'.toNat

/-- The `%d` pattern `3[01]|[12]\d|0[1-9]|[1-9]`, alternatives in regex
order; the continuation backtracks through them. -/
def dayCandidates : List Char → List (ℕ × List Char)
  | c1 :: c2 :: rest =>
      (if c1 = '3' ∧ (c2 = '0' ∨ c2 = '1') then [(30 + digitVal c2, rest)] else []) ++
      (if (c1 = '1' ∨ c1 = '2') ∧ c2.isDigit then
        [(10 * digitVal c1 + digitVal c2, rest)] else []) ++
      (if c1 = '0' ∧ c2.isDigit ∧ c2 ≠ '0' then [(digitVal c2, rest)] else []) ++
      (if c1.isDigit ∧ c1 ≠ '0' then [(digitVal c1, c2 :: rest)] else [])
  | [c1] => if c1.isDigit ∧ c1 ≠ '0' then [(digitVal c1, [])] else []
  | [] => []

/-- `%Y` (exactly four digits) followed by end of input — `strptime`
requires the whole string to match. -/
def parseYearEnd : List Char → Option ℕ
  | [a, b, c, d] =>
      if a.isDigit ∧ b.isDigit ∧ c.isDigit ∧ d.isDigit then
        some (1000 * digitVal a + 100 * digitVal b + 10 * digitVal c + digitVal d)
      else none
  | _ => none

/-- The format tail after `%d`: a literal comma, `\s+`, then the year. -/
def parseTail : List Char → Option ℕ
  | ',' :: rest =>
      match skipWs1 rest with
      | some r2 => parseYearEnd r2
      | none => none
  | _ => none

/-- Backtracking over the day alternatives: the first one whose
continuation matches. -/
def firstTail : List (ℕ × List Char) → Option (ℕ × ℕ)
  | [] => none
  | (d, rest) :: more =>
      match parseTail rest with
      | some y => some (d, y)
      | none => firstTail more

def isLeap (y : ℕ) : Bool :=
  decide (y % 4 = 0 ∧ (y % 100 ≠ 0 ∨ y % 400 = 0))

def daysInMonth (y m : ℕ) : ℕ :=
  if m = 2 then (if isLeap y then 29 else 28)
  else if m = 4 ∨ m = 6 ∨ m = 9 ∨ m = 11 then 30
  else 31

/-- ASCII lower-casing of one character (`strptime` matches names
case-insensitively; all inputs here are ASCII). -/
def lowerChar (c : Char) : Char :=
  if 'A' ≤ c ∧ c ≤ 'Z' then Char.ofNat (c.toNat + 32) else c

/-- Python `str.strip()` on a character list. -/
def trimChars (cs : List Char) : List Char :=
  ((cs.dropWhile Char.isWhitespace).reverse.dropWhile Char.isWhitespace).reverse

/-- Python `s.strip("()")`: remove leading and trailing parentheses. -/
def stripParensChars (cs : List Char) : List Char :=
  ((cs.dropWhile (fun c => c = '(' || c = ')')).reverse.dropWhile
    (fun c => c = '(' || c = ')')).reverse

/-- Python `s.split(" - ")`: split on every non-overlapping, leftmost
occurrence of the three-character separator. -/
def splitDash : List Char → List Char → List (List Char)
  | ' ' :: '-' :: ' ' :: rest, cur => cur.reverse :: splitDash rest []
  | c :: rest, cur => splitDash rest (c :: cur)
  | [], cur => [cur.reverse]

/-- Python `s.split(",")`. -/
def splitComma : List Char → List Char → List (List Char)
  | ',' :: rest, cur => cur.reverse :: splitComma rest []
  | c :: rest, cur => splitComma rest (c :: cur)
  | [], cur => [cur.reverse]

/-- `datetime.strptime(s, "%a %b %d, %Y")` followed by the `datetime`
constructor's validity check (year at least `MINYEAR` = 1, day within the
month). Matching is case-insensitive like Python's; the weekday name is
parsed but not cross-checked against the date, as in `strptime`. -/
def parseDateChars (cs0 : List Char) : Option Date :=
  let cs := cs0.map lowerChar
  match matchAnyKeyword weekdayNames cs with
  | none => none
  | some r1 =>
      match skipWs1 r1 with
      | none => none
      | some r2 =>
          match matchMonth monthNames r2 with
          | none => none
          | some (m, r3) =>
              match skipWs1 r3 with
              | none => none
              | some r4 =>
                  match firstTail (dayCandidates r4) with
                  | none => none
                  | some (d, y) =>
                      if 1 ≤ y ∧ 1 ≤ d ∧ d ≤ daysInMonth y m then
                        some ⟨y, m, d⟩
                      else none

/-- The period `date_range` parse at the top of
`_most_transactions_from_data` (strip parentheses, split on `" - "`,
unpack exactly two parts, `strptime` each, `strip()`ing first). It sits
outside any `try/except`: `none` models the ValueError escaping the
function. The source sets the end datetime to 23:59:59, which together
with transaction dates parsing to midnight makes the range check
date-inclusive, so only the two dates are kept. -/
def parseRange (dr : String) : Option (Date × Date) :=
  match splitDash (stripParensChars dr.toList) [] with
  | [s1, s2] =>
      match parseDateChars (trimChars s1), parseDateChars (trimChars s2) with
      | some d1, some d2 => some (d1, d2)
      | _, _ => none
  | _ => none

/-- The per-transaction date parse of `_most_transactions_from_data`:
skip when `date` is missing or empty, split on `","`, rejoin the
`strip()`ed first two parts with a bare `","`, `strptime "%a %b %d, %Y"`.
`none` models the caught `ValueError`/`IndexError` (`continue`). -/
def txnDate (t : Txn) : Option Date :=
  match t.date with
  | none => none
  | some ds =>
      match ds.toList with
      | [] => none
      | c :: rest =>
          match splitComma (c :: rest) [] with
          | p0 :: p1 :: _ =>
              parseDateChars (trimChars p0 ++ [','] ++ trimChars p1)
          | _ => none

/-- The `Counter` loop: count every transaction whose parsed date falls in
the inclusive range, keyed by team name, in first-seen order. -/
def countTxns (start stop : Date) (txns : List Txn) : List (String × ℕ) :=
  txns.foldl
    (fun acc t =>
      match txnDate t with
      | none => acc
      | some d =>
          if dateLe start d && dateLe d stop then
            updList acc t.team_name (getD acc t.team_name 0 + 1)
          else acc)
    []

/-- `_most_transactions_from_data(txns, period)`: `Counter.most_common()`
is a stable descending sort by count; entries with zero count are
filtered (vacuously — counts start at 1). `Except.error` is the
uncaught ValueError from an unparseable `date_range`. -/
def most_transactions_from_data (txns : List Txn) (p : Period) :
    Except Unit (List (String × ℕ)) :=
  match parseRange p.date_range with
  | none => .error ()
  | some (d1, d2) =>
      .ok (((sortDesc (fun q => q.2) (countTxns d1 d2 txns)).filter
        (fun q => decide (0 < q.2))))

/-- The two sides of a matchup (`for side in ["away", "home"]`). -/
inductive Side where
  | away : Side
  | home : Side
deriving DecidableEq

def sideName (m : Matchup) : Side → String
  | .away => m.away_team_name
  | .home => m.home_team_name

def sideCatsOf (m : Matchup) : Side → List (String × Option ℚ)
  | .away => m.away_cats
  | .home => m.home_cats

/-- One `team_values[cat_name].append((team_name, val))` step of
`_category_kings`, skipping a value that fails to parse. `cats[cat]` is
modelled with default `none` (the data model guarantees the key is
present). -/
def kingsCatStep (m : Matchup) (side : Side)
    (acc : List (String × List (String × ℚ))) (cat : String) :
    List (String × List (String × ℚ)) :=
  match getD (sideCatsOf m side) cat none with
  | some v => updList acc cat (getD acc cat [] ++ [(sideName m side, v)])
  | none => acc

/-- `_category_kings`' `team_values` collection: for every matchup, side and
category of the period (the first matchup's category list), append
`(team, value)` when the value parses, skip it otherwise. -/
def kingsValues (p : Period) : List (String × List (String × ℚ)) :=
  match p.matchups with
  | [] => []
  | m0 :: _ =>
      p.matchups.foldl
        (fun acc m =>
          [Side.away, Side.home].foldl
            (fun acc2 side => m0.categories.foldl (kingsCatStep m side) acc2)
            acc)
        []

/-- The best-value selection of `_category_kings`: stable sort by value,
ascending for lower-is-better categories, descending otherwise; take the
first. -/
def kingOf (lib : Bool) (vals : List (String × ℚ)) : Option (String × ℚ) :=
  (if lib then sortAsc (fun x => x.2) vals
   else sortDesc (fun x => x.2) vals).head?

/-- `_category_kings(period)`. -/
def category_kings (p : Period) : List (String × (String × ℚ)) :=
  (kingsValues p).foldl
    (fun acc cv =>
      if cv.2.isEmpty then acc
      else
        match kingOf (isLIB cv.1) cv.2 with
        | some kv => updList acc cv.1 kv
        | none => acc)
    []

/-- One simulated pairing of the all-play loops, instrumented with the two
teams and their collected category maps. -/
structure PairSim where
  t1 : String
  t2 : String
  c1 : Cats
  c2 : Cats
deriving DecidableEq

/-- The pairings produced by the inner loop for a fixed first team. -/
def pairInnerSims (t1 : String) (c1 : Cats) (rest : List (String × Cats)) :
    List PairSim :=
  rest.map (fun q => ⟨t1, q.1, c1, q.2⟩)

/-- Every unordered pair the pair loops process, in processing order. -/
def pairSims : List (String × Cats) → List PairSim
  | [] => []
  | (t1, c1) :: rest => pairInnerSims t1 c1 rest ++ pairSims rest

/-- The pairings simulated within one period. -/
def periodSims (p : Period) : List PairSim :=
  pairSims (collect_team_cats p)

/-- The pairings simulated by `_all_play_record` through the cutoff. -/
def allPlaySims (thr : ℕ) : List Period → List PairSim
  | [] => []
  | p :: rest =>
      if thr < p.period_num then []
      else (if p.matchups = [] then [] else periodSims p) ++ allPlaySims thr rest

/-- The record one pairing credits to team `t` (both credit statements of
the loop body combined). -/
def PairSim.credit (e : PairSim) (t : String) : Rcd :=
  (if e.t1 = t then simulate_h2h e.c1 e.c2 else Rcd.zero).add
    (if e.t2 = t then (simulate_h2h e.c1 e.c2).swap else Rcd.zero)

/-- What one pairing credits to team `a` from its comparison against team
`b`: the straight record when `a` was processed first, the swapped record
when second, nothing otherwise. -/
def pairSel (a b : String) (e : PairSim) : Rcd :=
  if e.t1 = a ∧ e.t2 = b then simulate_h2h e.c1 e.c2
  else if e.t1 = b ∧ e.t2 = a then (simulate_h2h e.c1 e.c2).swap
  else Rcd.zero

/-- Total record the all-play simulation credits to team `a` from its
comparisons against team `b`, through the cutoff. -/
def creditedTo (schedule : List Period) (thr : ℕ) (a b : String) : Rcd :=
  ((allPlaySims thr schedule).map (pairSel a b)).foldr Rcd.add Rcd.zero

/-- Occurrences of a given category with a given outcome among the
per-category results of one simulated pairing. -/
def outcomeCount (l : List (String × Outcome)) (cat : String) (o : Outcome) : ℕ :=
  l.countP (fun q => decide (q.1 = cat ∧ q.2 = o))

/-- All-play category wins credited to team `t` in category `cat` within
one period: wins of the pairings where `t` is the first team plus losses
charged to the first team where `t` is the second. -/
def periodCatWins (p : Period) (t cat : String) : ℕ :=
  ((periodSims p).map
    (fun e =>
      (if e.t1 = t then outcomeCount (simulateList e.c1 e.c2) cat .win else 0) +
      (if e.t2 = t then outcomeCount (simulateList e.c1 e.c2) cat .loss else 0))).sum

/-- The zero-innings condition on a team of a period, read off the
collected map (the penalty never rewrites "Innings Pitched" itself, so
this is the `get("Innings Pitched", 0) == 0` test of the source). -/
def teamIPZero (p : Period) (t : String) : Bool :=
  match lookupKV (collect_team_cats p) t with
  | some c => decide (getD c "Innings Pitched" (XVal.num 0) = XVal.num 0)
  | none => false

/-- Decidable form of "every value recorded at this category fails to
parse" for one side's raw category list. -/
def allNoneAt (l : List (String × Option ℚ)) (cat : String) : Bool :=
  l.all (fun q => decide (q.1 ≠ cat ∨ q.2 = none))

/-- Decidable form of "every side of every matchup of the period records an
unparseable (or missing) value at this category". -/
def periodAllNoneAt (p : Period) (cat : String) : Bool :=
  p.matchups.all
    (fun m =>
      decide (getD m.away_cats cat none = none) &&
      decide (getD m.home_cats cat none = none))

/-! Concrete fixtures used to evaluate the embedded functions. -/

/-- Matchup C vs D: both record "Losses" and non-zero "Innings Pitched". -/
def mFixCD : Matchup :=
  ⟨"C", "D", 0, 0, 0, 0, 0, 0,
   [("Losses", some 5), ("Innings Pitched", some 1)],
   [("Losses", some 5), ("Innings Pitched", some 1)],
   ["Losses", "Innings Pitched"]⟩

/-- Matchup A vs B: both record only a zero "Innings Pitched". -/
def mFixAB : Matchup :=
  ⟨"A", "B", 0, 0, 0, 0, 0, 0,
   [("Innings Pitched", some 0)],
   [("Innings Pitched", some 0)],
   ["Innings Pitched"]⟩

/-- A period mixing the two matchups above. -/
def pFix0 : Period := ⟨1, "Scoring Period 1", "x", [mFixCD, mFixAB]⟩

/-- Matchup where the zero-IP team A also records an ERA value. -/
def mFixIP : Matchup :=
  ⟨"A", "B", 0, 0, 0, 0, 0, 0,
   [("Innings Pitched", some 0), ("Earned Run Average", some (mkRat 7 2))],
   [("Innings Pitched", some 1), ("Earned Run Average", some 4)],
   ["Innings Pitched", "Earned Run Average"]⟩

def pFixIP : Period := ⟨1, "Scoring Period 1", "x", [mFixIP]⟩

/-- Team A's collected map for `pFixIP` (ERA coerced by the penalty). -/
def cFixA : Cats :=
  [("Innings Pitched", XVal.num 0), ("Earned Run Average", XVal.pinf)]

/-- Period 1: A and B tie their only category. -/
def pFix1 : Period :=
  ⟨1, "Scoring Period 1", "x",
   [⟨"A", "B", 0, 0, 1, 0, 0, 1,
     [("Home Runs", some 5)], [("Home Runs", some 5)], ["Home Runs"]⟩]⟩

/-- Period 2: A beats B in the only category. -/
def pFix2 : Period :=
  ⟨2, "Scoring Period 2", "x",
   [⟨"A", "B", 1, 0, 0, 0, 1, 0,
     [("Home Runs", some 7)], [("Home Runs", some 3)], ["Home Runs"]⟩]⟩

/-- A two-team standings snapshot with identical records. -/
def stFix : List SRow := [⟨1, "A", 0, 0, 0⟩, ⟨2, "B", 0, 0, 0⟩]

/-- A period whose date range parses (it has no matchups; the transaction
metric never reads them). -/
def pFixTx : Period :=
  ⟨10, "Scoring Period 10", "(Mon Jun 16, 2025 - Sun Jun 22, 2025)", []⟩

/-- The spec's concrete transaction: an addition by team Foo inside the
range of `pFixTx`. -/
def txFoo : Txn := ⟨"Foo", some "Wed Jun 18, 2025, 10:00am", true⟩

/-- A non-addition (drop) transaction inside the same range. -/
def txBar : Txn := ⟨"Bar", some "Wed Jun 18, 2025, 11:00am", false⟩

/-- A transaction whose date cannot be parsed at all. -/
def txBad : Txn := ⟨"Baz", some "not a date", true⟩

/-- A period whose only category value is unparseable on both sides. -/
def pFixKings : Period :=
  ⟨1, "Scoring Period 1", "x",
   [⟨"A", "B", 0, 0, 0, 0, 0, 0,
     [("Home Runs", none)], [("Home Runs", none)], ["Home Runs"]⟩]⟩

/-- Current standings containing a team absent from the previous ones. -/
def stCur : List SRow := [⟨1, "A", 3, 1, 0⟩, ⟨2, "New", 2, 2, 0⟩]

/-- Previous standings without team "New". -/
def stPrev : List SRow := [⟨1, "A", 3, 1, 0⟩]

/-! Dictionary and record lemmas. -/

theorem getD_nil {α : Type} (k : String) (dflt : α) : getD [] k dflt = dflt := rfl

theorem getD_updList {α : Type} (d : List (String × α)) (k t : String)
    (v dflt : α) :
    getD (updList d k v) t dflt = if k = t then v else getD d t dflt := by
  induction d with
  | nil => simp [updList, getD]
  | cons hd tl ih =>
      obtain ⟨k0, v0⟩ := hd
      by_cases h0 : k0 = k
      · subst h0
        by_cases ht : k0 = t <;> simp [updList, getD, ht]
      · by_cases ht : k0 = t
        · subst ht
          simp [updList, getD, h0, Ne.symm h0]
        · simp [updList, getD, h0, ht, ih]

theorem lookupKV_updList {α : Type} (d : List (String × α)) (k t : String)
    (v : α) :
    lookupKV (updList d k v) t = if k = t then some v else lookupKV d t := by
  induction d with
  | nil => simp [updList, lookupKV]
  | cons hd tl ih =>
      obtain ⟨k0, v0⟩ := hd
      by_cases h0 : k0 = k
      · subst h0
        by_cases ht : k0 = t <;> simp [updList, lookupKV, ht]
      · by_cases ht : k0 = t
        · subst ht
          simp [updList, lookupKV, h0, Ne.symm h0]
        · simp [updList, lookupKV, h0, ht, ih]

theorem mem_updList {α : Type} (d : List (String × α)) (k : String) (v : α)
    (x : String × α) (hx : x ∈ updList d k v) : x = (k, v) ∨ x ∈ d := by
  induction d with
  | nil => simpa [updList] using hx
  | cons hd tl ih =>
      obtain ⟨k0, v0⟩ := hd
      by_cases h0 : k0 = k
      · subst h0
        rcases (by simpa [updList] using hx : x = (k0, v) ∨ x ∈ tl) with h | h
        · exact Or.inl h
        · exact Or.inr (List.mem_cons_of_mem _ h)
      · rcases (by simpa [updList, h0] using hx :
            x = (k0, v0) ∨ x ∈ updList tl k v) with h | h
        · exact Or.inr (by simp [h])
        · rcases ih h with h2 | h2
          · exact Or.inl h2
          · exact Or.inr (List.mem_cons_of_mem _ h2)

theorem mem_keysOf_updList {α : Type} (d : List (String × α)) (k : String)
    (v : α) (t : String) :
    t ∈ keysOf (updList d k v) ↔ t = k ∨ t ∈ keysOf d := by
  induction d with
  | nil => simp [updList, keysOf]
  | cons hd tl ih =>
      obtain ⟨k0, v0⟩ := hd
      by_cases h0 : k0 = k
      · subst h0
        simp [updList, keysOf]
      · simp only [updList, if_neg h0, keysOf, List.map_cons, List.mem_cons]
        rw [show List.map Prod.fst (updList tl k v) = keysOf (updList tl k v) from rfl]
        rw [ih]
        constructor
        · rintro (h | h)
          · exact Or.inr (Or.inl h)
          · rcases h with h | h
            · exact Or.inl h
            · exact Or.inr (Or.inr h)
        · rintro (h | h)
          · exact Or.inr (Or.inl h)
          · rcases h with h | h
            · exact Or.inl h
            · exact Or.inr (Or.inr h)

theorem keysOf_nodup_updList {α : Type} (d : List (String × α)) (k : String)
    (v : α) (h : (keysOf d).Nodup) : (keysOf (updList d k v)).Nodup := by
  induction d with
  | nil => simp [updList, keysOf]
  | cons hd tl ih =>
      obtain ⟨k0, v0⟩ := hd
      simp only [keysOf, List.map_cons, List.nodup_cons] at h
      by_cases h0 : k0 = k
      · subst h0
        simpa [updList, keysOf, List.nodup_cons] using h
      · simp only [updList, if_neg h0, keysOf, List.map_cons, List.nodup_cons]
        constructor
        · intro hmem
          rcases (mem_keysOf_updList tl k v k0).1 hmem with h2 | h2
          · exact h0 h2
          · exact h.1 h2
        · exact ih h.2

theorem lookupKV_of_mem_nodup {α : Type} (l : List (String × α)) (k : String)
    (v : α) (hnd : (keysOf l).Nodup) (hm : (k, v) ∈ l) :
    lookupKV l k = some v := by
  induction l with
  | nil => cases hm
  | cons hd tl ih =>
      obtain ⟨k0, v0⟩ := hd
      simp only [keysOf, List.map_cons, List.nodup_cons] at hnd
      rcases List.mem_cons.1 hm with h | h
      · obtain ⟨h1, h2⟩ := Prod.mk.injEq .. ▸ h.symm
        simp [lookupKV, h1.symm, h2]
      · by_cases h0 : k0 = k
        · subst h0
          exact absurd (List.mem_map_of_mem Prod.fst h) hnd.1
        · simpa [lookupKV, h0] using ih hnd.2 h

theorem lookupKV_mem {α : Type} (l : List (String × α)) (k : String) (v : α)
    (h : lookupKV l k = some v) : (k, v) ∈ l := by
  induction l with
  | nil => cases h
  | cons hd tl ih =>
      obtain ⟨k0, v0⟩ := hd
      by_cases h0 : k0 = k
      · subst h0
        have hv : v0 = v := by simpa [lookupKV] using h
        subst hv
        exact List.mem_cons_self _ _
      · simp only [lookupKV, if_neg h0] at h
        exact List.mem_cons_of_mem _ (ih h)

theorem getD_of_all {α : Type} (l : List (String × α)) (k : String)
    (x dflt : α) (hk : k ∈ keysOf l) (hall : ∀ v, (k, v) ∈ l → v = x) :
    getD l k dflt = x := by
  induction l with
  | nil => cases hk
  | cons hd tl ih =>
      obtain ⟨k0, v0⟩ := hd
      by_cases h0 : k0 = k
      · subst h0
        simpa [getD] using hall v0 (List.mem_cons_self _ _)
      · simp only [keysOf, List.map_cons, List.mem_cons] at hk
        rcases hk with h | h
        · exact absurd h.symm h0
        · simpa [getD, h0] using
            ih h (fun v hv => hall v (List.mem_cons_of_mem _ hv))

theorem Rcd.add_zero (r : Rcd) : r.add Rcd.zero = r := by
  cases r; simp [Rcd.add, Rcd.zero]

theorem Rcd.zero_add (r : Rcd) : Rcd.zero.add r = r := by
  cases r; simp [Rcd.add, Rcd.zero]

theorem Rcd.add_assoc (a b c : Rcd) : (a.add b).add c = a.add (b.add c) := by
  cases a; cases b; cases c
  simp only [Rcd.add, Rcd.mk.injEq]
  omega

theorem ratDiv_eq_div (a b : ℚ) : ratDiv a b = a / b := by
  unfold ratDiv
  rcases eq_or_ne b 0 with rfl | hb
  · simp
  · have had : ((a.den : ℚ)) ≠ 0 := Nat.cast_ne_zero.2 a.den_nz
    have hbd : ((b.den : ℚ)) ≠ 0 := Nat.cast_ne_zero.2 b.den_nz
    have hbn : ((b.num : ℚ)) ≠ 0 := Int.cast_ne_zero.2 (Rat.num_ne_zero.2 hb)
    have ha : (a.num : ℚ) = a * a.den := (div_eq_iff had).1 (Rat.num_div_den a)
    have hb2 : (b.num : ℚ) = b * b.den := (div_eq_iff hbd).1 (Rat.num_div_den b)
    rw [Rat.divInt_eq_div]
    push_cast
    rw [div_eq_div_iff (mul_ne_zero had hbn) hb, ha, hb2]
    ring

theorem ratSub_eq_sub (a b : ℚ) : ratSub a b = a - b := by
  unfold ratSub
  have had : ((a.den : ℚ)) ≠ 0 := Nat.cast_ne_zero.2 a.den_nz
  have hbd : ((b.den : ℚ)) ≠ 0 := Nat.cast_ne_zero.2 b.den_nz
  have ha : (a.num : ℚ) = a * a.den := (div_eq_iff had).1 (Rat.num_div_den a)
  have hb : (b.num : ℚ) = b * b.den := (div_eq_iff hbd).1 (Rat.num_div_den b)
  rw [Rat.divInt_eq_div]
  push_cast
  rw [div_eq_iff (mul_ne_zero had hbd), ha, hb]
  ring

/-! Additivity of the record accumulation. -/

theorem getD_bump (d : List (String × Rcd)) (k t : String) (r : Rcd) :
    getD (bump d k r) t Rcd.zero =
      if k = t then (getD d t Rcd.zero).add r else getD d t Rcd.zero := by
  unfold bump
  rw [getD_updList]
  by_cases h : k = t
  · subst h; simp
  · simp [h]

theorem getD_doubleBump (d : List (String × Rcd)) (a b t : String)
    (ra rb : Rcd) :
    getD (bump (bump d a ra) b rb) t Rcd.zero =
      (getD d t Rcd.zero).add (getD (bump (bump [] a ra) b rb) t Rcd.zero) := by
  rw [getD_bump, getD_bump, getD_bump, getD_bump]
  simp only [getD_nil]
  split_ifs <;> simp [Rcd.zero_add, Rcd.add_zero, Rcd.add_assoc]

theorem getD_doubleBump_nil (a b t : String) (ra rb : Rcd) :
    getD (bump (bump [] a ra) b rb) t Rcd.zero =
      (if a = t then ra else Rcd.zero).add
        (if b = t then rb else Rcd.zero) := by
  rw [getD_bump, getD_bump]
  simp only [getD_nil]
  split_ifs <;> simp [Rcd.zero_add, Rcd.add_zero]

theorem getD_pairInner (t1 : String) (c1 : Cats)
    (rest : List (String × Cats)) :
    ∀ (d : List (String × Rcd)) (t : String),
    getD (pairInner t1 c1 rest d) t Rcd.zero =
      (getD d t Rcd.zero).add (getD (pairInner t1 c1 rest []) t Rcd.zero) := by
  induction rest with
  | nil => intro d t; simp [pairInner, getD_nil, Rcd.add_zero]
  | cons hd tl ih =>
      intro d t
      obtain ⟨t2, c2⟩ := hd
      simp only [pairInner]
      rw [ih, ih (bump (bump [] t1 (simulate_h2h c1 c2)) t2
        (simulate_h2h c1 c2).swap)]
      rw [getD_doubleBump, Rcd.add_assoc]

theorem getD_pairOuter (l : List (String × Cats)) :
    ∀ (d : List (String × Rcd)) (t : String),
    getD (pairOuter l d) t Rcd.zero =
      (getD d t Rcd.zero).add (getD (pairOuter l []) t Rcd.zero) := by
  induction l with
  | nil => intro d t; simp [pairOuter, getD_nil, Rcd.add_zero]
  | cons hd tl ih =>
      intro d t
      obtain ⟨t1, c1⟩ := hd
      simp only [pairOuter]
      rw [ih, ih (pairInner t1 c1 tl []), getD_pairInner, Rcd.add_assoc]

theorem foldr_add_init (l : List Rcd) (X : Rcd) :
    l.foldr Rcd.add X = (l.foldr Rcd.add Rcd.zero).add X := by
  induction l with
  | nil => simp [Rcd.zero_add]
  | cons a tl ih => simp [List.foldr_cons, ih, Rcd.add_assoc]

/-! The per-pair credit decomposition: the aggregate record of
`_all_play_record` is exactly the sum of the credits of the instrumented
pairings. -/

theorem getD_pairInner_credit (t1 : String) (c1 : Cats)
    (rest : List (String × Cats)) :
    ∀ (d : List (String × Rcd)) (t : String),
    getD (pairInner t1 c1 rest d) t Rcd.zero =
      (getD d t Rcd.zero).add
        (((pairInnerSims t1 c1 rest).map (fun e => e.credit t)).foldr
          Rcd.add Rcd.zero) := by
  induction rest with
  | nil => intro d t; simp [pairInner, pairInnerSims, Rcd.add_zero]
  | cons hd tl ih =>
      intro d t
      obtain ⟨t2, c2⟩ := hd
      simp only [pairInner, pairInnerSims, List.map_cons, List.foldr_cons]
      rw [ih, getD_doubleBump, getD_doubleBump_nil, Rcd.add_assoc]
      rfl

theorem creditSum_append (f : PairSim → Rcd) (l1 l2 : List PairSim) :
    ((l1 ++ l2).map f).foldr Rcd.add Rcd.zero =
      ((l1.map f).foldr Rcd.add Rcd.zero).add
        ((l2.map f).foldr Rcd.add Rcd.zero) := by
  rw [List.map_append, List.foldr_append, foldr_add_init]

theorem getD_pairOuter_credit (l : List (String × Cats)) :
    ∀ (d : List (String × Rcd)) (t : String),
    getD (pairOuter l d) t Rcd.zero =
      (getD d t Rcd.zero).add
        (((pairSims l).map (fun e => e.credit t)).foldr Rcd.add Rcd.zero) := by
  induction l with
  | nil => intro d t; simp [pairOuter, pairSims, Rcd.add_zero]
  | cons hd tl ih =>
      intro d t
      obtain ⟨t1, c1⟩ := hd
      simp only [pairOuter, pairSims]
      rw [ih, getD_pairInner_credit, creditSum_append, Rcd.add_assoc]

/-- Honesty of the instrumentation: a team's aggregate all-play record is
the fold of the per-pairing credits. -/
theorem getD_allPlay_eq_credit (thr : ℕ) :
    ∀ (s : List Period) (d : List (String × Rcd)) (t : String),
    getD (allPlayAux thr s d) t Rcd.zero =
      (getD d t Rcd.zero).add
        (((allPlaySims thr s).map (fun e => e.credit t)).foldr
          Rcd.add Rcd.zero) := by
  intro s
  induction s with
  | nil => intro d t; simp [allPlayAux, allPlaySims, Rcd.add_zero]
  | cons p rest ih =>
      intro d t
      by_cases h : thr < p.period_num
      · simp [allPlayAux, allPlaySims, h, Rcd.add_zero]
      · by_cases hm : p.matchups = []
        · simp only [allPlayAux, if_neg h, if_pos hm, allPlaySims,
            List.nil_append]
          exact ih d t
        · simp only [allPlayAux, if_neg h, if_neg hm, allPlaySims]
          rw [ih, getD_pairOuter_credit, creditSum_append, Rcd.add_assoc]
          rfl

/-! The `break`-at-cutoff loop as a fold over a `takeWhile` prefix. -/

theorem allPlayAux_eq_foldl (thr : ℕ) :
    ∀ (s : List Period) (d : List (String × Rcd)),
    allPlayAux thr s d =
      (s.takeWhile (fun p => decide (p.period_num ≤ thr))).foldl
        (fun d p =>
          if p.matchups = [] then d else pairOuter (collect_team_cats p) d)
        d := by
  intro s
  induction s with
  | nil => intro d; rfl
  | cons p rest ih =>
      intro d
      by_cases h : thr < p.period_num
      · have hd : decide (p.period_num ≤ thr) = false := by
          simp only [decide_eq_false_iff_not]; omega
        simp [allPlayAux, h, List.takeWhile_cons, hd]
      · have hd : decide (p.period_num ≤ thr) = true := by
          simp only [decide_eq_true_eq]; omega
        simp [allPlayAux, h, List.takeWhile_cons, hd, ih]

theorem takeWhile_nil_of_false {α : Type} (pr : α → Bool) (l : List α)
    (h : ∀ x ∈ l, pr x = false) : l.takeWhile pr = [] := by
  cases l with
  | nil => rfl
  | cons a t => simp [List.takeWhile_cons, h a (List.mem_cons_self a t)]

theorem takeWhile_cutoff (s : List Period) (p : Period) (N : ℕ)
    (hsort : s.Pairwise (fun a b => a.period_num < b.period_num))
    (hmem : p ∈ s) (hN : p.period_num = N) (h1 : 1 ≤ N) :
    s.takeWhile (fun q => decide (q.period_num ≤ N)) =
      s.takeWhile (fun q => decide (q.period_num ≤ N - 1)) ++ [p] := by
  induction s with
  | nil => cases hmem
  | cons q t ih =>
      rw [List.pairwise_cons] at hsort
      obtain ⟨hlt, hsort2⟩ := hsort
      rcases List.mem_cons.1 hmem with rfl | hmem2
      · have hq1 : p.period_num ≤ N := le_of_eq hN
        have hq2 : ¬ p.period_num ≤ N - 1 := by omega
        have ht : t.takeWhile (fun x => decide (x.period_num ≤ N)) = [] := by
          apply takeWhile_nil_of_false
          intro x hx
          have hx2 := hlt x hx
          simp only [decide_eq_false_iff_not]
          omega
        simp [List.takeWhile_cons, hq1, hq2, ht]
      · have hqp : q.period_num < N := hN ▸ hlt p hmem2
        have hq1 : q.period_num ≤ N := by omega
        have hq2 : q.period_num ≤ N - 1 := by omega
        simp [List.takeWhile_cons, hq1, hq2, ih hsort2 hmem2]

/-- C4: with a strictly ascending schedule (period numbers are unique and
1-based in the data model), each team's all-play aggregate through period
`N` is the aggregate through `N - 1` plus the contribution of period `N`
alone, component-wise. -/
theorem allPlay_additive (s : List Period) (p : Period) (N : ℕ)
    (hsort : s.Pairwise (fun a b => a.period_num < b.period_num))
    (hmem : p ∈ s) (hN : p.period_num = N) (h1 : 1 ≤ N) (t : String) :
    getD (allPlayRecords s N) t Rcd.zero =
      (getD (allPlayRecords s (N - 1)) t Rcd.zero).add
        (getD (weeklyRecords p) t Rcd.zero) := by
  unfold allPlayRecords
  rw [allPlayAux_eq_foldl, allPlayAux_eq_foldl]
  rw [takeWhile_cutoff s p N hsort hmem hN h1]
  rw [List.foldl_append]
  simp only [List.foldl_cons, List.foldl_nil]
  by_cases hm : p.matchups = []
  · have hc : collect_team_cats p = [] := by
      simp [collect_team_cats, hm]
    simp [hm, weeklyRecords, hc, pairOuter, getD_nil, Rcd.add_zero]
  · simp only [if_neg hm]
    rw [getD_pairOuter]
    simp [weeklyRecords]

/-- Witness for the additivity theorem on a concrete two-period schedule. -/
theorem allPlay_additive_witness :
    (([pFix1, pFix2] : List Period).Pairwise
        (fun a b => a.period_num < b.period_num) ∧
      pFix2 ∈ [pFix1, pFix2] ∧ pFix2.period_num = 2 ∧ 1 ≤ 2) ∧
    getD (allPlayRecords [pFix1, pFix2] 2) "A" Rcd.zero =
      (getD (allPlayRecords [pFix1, pFix2] (2 - 1)) "A" Rcd.zero).add
        (getD (weeklyRecords pFix2) "A" Rcd.zero) := by
  refine ⟨⟨?_, ?_, ?_, ?_⟩, ?_⟩
  · simp [List.pairwise_cons, pFix1, pFix2]
  · simp
  · rfl
  · decide
  · exact allPlay_additive [pFix1, pFix2] pFix2 2
      (by simp [List.pairwise_cons, pFix1, pFix2]) (by simp) rfl
      (by decide) "A"

/-! C1: pairwise symmetry of the all-play credits. -/

theorem pairSel_swap (a b : String) (hab : a ≠ b) (e : PairSim) :
    (pairSel a b e).wins = (pairSel b a e).losses ∧
    (pairSel a b e).losses = (pairSel b a e).wins ∧
    (pairSel a b e).ties = (pairSel b a e).ties := by
  unfold pairSel
  by_cases h1 : e.t1 = a ∧ e.t2 = b
  · have hne : ¬ (e.t1 = b ∧ e.t2 = a) := by
      rintro ⟨hb, _⟩
      exact hab (h1.1.symm.trans hb)
    simp [h1, hne, hab, Rcd.swap]
  · by_cases h2 : e.t1 = b ∧ e.t2 = a
    · simp [h1, h2, hab, Ne.symm hab, Rcd.swap]
    · simp [h1, h2, Rcd.zero]

theorem creditedSym_aux (a b : String) (hab : a ≠ b) :
    ∀ (l : List PairSim),
    ((l.map (pairSel a b)).foldr Rcd.add Rcd.zero).wins =
        ((l.map (pairSel b a)).foldr Rcd.add Rcd.zero).losses ∧
    ((l.map (pairSel a b)).foldr Rcd.add Rcd.zero).losses =
        ((l.map (pairSel b a)).foldr Rcd.add Rcd.zero).wins ∧
    ((l.map (pairSel a b)).foldr Rcd.add Rcd.zero).ties =
        ((l.map (pairSel b a)).foldr Rcd.add Rcd.zero).ties := by
  intro l
  induction l with
  | nil => simp [Rcd.zero]
  | cons e tl ih =>
      simp only [List.map_cons, List.foldr_cons]
      obtain ⟨w1, w2, w3⟩ := pairSel_swap a b hab e
      obtain ⟨i1, i2, i3⟩ := ih
      refine ⟨?_, ?_, ?_⟩ <;> simp [Rcd.add, w1, w2, w3, i1, i2, i3]

/-- C1: for distinct teams, the wins the all-play simulation credits to
the first from comparisons against the second equal the losses it charges
to the second from comparisons against the first (and conversely), and
the ties credited to each from their mutual comparisons coincide. -/
theorem allPlay_pair_symmetry (schedule : List Period) (thr : ℕ)
    (a b : String) (hab : a ≠ b) :
    (creditedTo schedule thr a b).wins = (creditedTo schedule thr b a).losses ∧
    (creditedTo schedule thr a b).losses = (creditedTo schedule thr b a).wins ∧
    (creditedTo schedule thr a b).ties = (creditedTo schedule thr b a).ties := by
  unfold creditedTo
  exact creditedSym_aux a b hab _

/-- Witness for the symmetry theorem at a concrete schedule. -/
theorem allPlay_pair_symmetry_witness :
    ("C" : String) ≠ "A" ∧
    ((creditedTo [pFix0] 1 "C" "A").wins =
        (creditedTo [pFix0] 1 "A" "C").losses ∧
      (creditedTo [pFix0] 1 "C" "A").losses =
        (creditedTo [pFix0] 1 "A" "C").wins ∧
      (creditedTo [pFix0] 1 "C" "A").ties =
        (creditedTo [pFix0] 1 "A" "C").ties) :=
  ⟨by decide, allPlay_pair_symmetry [pFix0] 1 "C" "A" (by decide)⟩

/-! C9: aggregator target resolution and the "no completed period" error. -/

theorem getLast?_ne_none {α : Type} (b : α) (t : List α) :
    (b :: t).getLast? ≠ none := by
  induction t generalizing b with
  | nil => simp
  | cons c u ih =>
      rw [List.getLast?_cons_cons]
      exact ih c

theorem getLast?_cons_match {α : Type} (a : α) (l : List α) :
    (a :: l).getLast? =
      match l.getLast? with
      | some x => some x
      | none => some a := by
  cases l with
  | nil => rfl
  | cons b t =>
      rw [List.getLast?_cons_cons]
      cases h : (b :: t).getLast? with
      | none => exact absurd h (getLast?_ne_none b t)
      | some x => rfl

theorem latest_aux (s : List Period) :
    ∀ acc : Option Period,
    s.foldl latestStep acc =
      match (s.filter completedFirst).getLast? with
      | some x => some x
      | none => acc := by
  induction s with
  | nil => intro acc; rfl
  | cons p t ih =>
      intro acc
      by_cases h : completedFirst p
      · rw [List.foldl_cons,
          show latestStep acc p = some p from by simp [latestStep, h],
          ih (some p), List.filter_cons_of_pos h, getLast?_cons_match]
        cases hf : (t.filter completedFirst).getLast? <;> rfl
      · rw [List.foldl_cons,
          show latestStep acc p = acc from by simp [latestStep, h],
          ih acc, List.filter_cons_of_neg (by simpa using h)]

/-- C9: with the target period omitted, the aggregator resolves the last
period in schedule order whose first matchup has a scored away record; and
it reports the "no completed period" error exactly when the resolved
period (auto-detected or explicitly requested) is absent or has an empty
matchup list. -/
theorem aggregator_target_resolution (s : List Period) :
    resolveTarget s none = (s.filter completedFirst).getLast? ∧
    ∀ pn : Option ℕ,
      (weeklyError s pn = true ↔
        resolveTarget s pn = none ∨
          ∃ p, resolveTarget s pn = some p ∧ p.matchups = []) := by
  constructor
  · show latest_completed s = _
    rw [latest_completed, latest_aux]
    cases hf : (s.filter completedFirst).getLast? <;> rfl
  · intro pn
    unfold weeklyError
    cases hr : resolveTarget s pn with
    | none => simp
    | some p => simp [List.isEmpty_iff]

/-! C10: a current team missing from non-empty previous standings moves 0. -/

theorem getD_prevRanks (k : String) :
    ∀ (prev : List SRow), (∀ r ∈ prev, r.team_name ≠ k) →
    ∀ (acc : List (String × ℤ)) (dflt : ℤ),
    getD (prev.foldl (fun a s => updList a s.team_name s.rank) acc) k dflt =
      getD acc k dflt := by
  intro prev
  induction prev with
  | nil => intro _ acc dflt; rfl
  | cons r t ih =>
      intro h acc dflt
      rw [List.foldl_cons, ih (fun x hx => h x (List.mem_cons_of_mem _ hx)),
        getD_updList, if_neg (h r (List.mem_cons_self r t))]

theorem lookup_moveFold (prevRanks : List (String × ℤ)) (k : String)
    (hzero : ∀ s : SRow, s.team_name = k →
      getD prevRanks s.team_name s.rank - s.rank = 0) :
    ∀ (rows : List SRow) (acc : List (String × ℤ)),
    ((∃ s ∈ rows, s.team_name = k) ∨ lookupKV acc k = some 0) →
    lookupKV (rows.foldl (moveStep prevRanks) acc) k = some 0 := by
  intro rows
  induction rows with
  | nil =>
      intro acc h
      rcases h with ⟨s, hs, _⟩ | h
      · cases hs
      · exact h
  | cons s t ih =>
      intro acc h
      rw [List.foldl_cons]
      by_cases hk : s.team_name = k
      · apply ih
        right
        rw [moveStep, lookupKV_updList, if_pos hk, hzero s hk]
      · apply ih
        rcases h with ⟨s2, hs2, hk2⟩ | h
        · rcases List.mem_cons.1 hs2 with rfl | hs3
          · exact absurd hk2 hk
          · exact Or.inl ⟨s2, hs3, hk2⟩
        · right
          rw [moveStep, lookupKV_updList, if_neg hk]
          exact h

/-- C10: with previous standings present and non-empty, a current team
absent from them is assigned a movement of exactly 0 (its previous rank
defaults to its current rank). -/
theorem movement_default_zero (current prevL : List SRow) (s : SRow)
    (hne : prevL ≠ []) (hmem : s ∈ current)
    (habsent : ∀ r ∈ prevL, r.team_name ≠ s.team_name) :
    lookupKV (standings_movement current (some prevL)) s.team_name = some 0 := by
  simp only [standings_movement]
  rw [if_neg hne]
  apply lookup_moveFold
  · intro s2 hk
    rw [hk, getD_prevRanks s.team_name prevL habsent [] s2.rank, getD_nil]
    omega
  · exact Or.inl ⟨s, hmem, rfl⟩

/-- Witness for the movement-default theorem at concrete standings. -/
theorem movement_default_zero_witness :
    (stPrev ≠ [] ∧ (⟨2, "New", 2, 2, 0⟩ : SRow) ∈ stCur ∧
      ∀ r ∈ stPrev, r.team_name ≠ "New") ∧
    lookupKV (standings_movement stCur (some stPrev)) "New" = some 0 := by
  refine ⟨⟨?_, ?_, ?_⟩, ?_⟩
  · simp [stPrev]
  · simp [stCur]
  · decide
  · exact movement_default_zero stCur stPrev ⟨2, "New", 2, 2, 0⟩
      (by simp [stPrev]) (by simp [stCur]) (by decide)

/-! C2: unparseable category values in the all-play collection. -/

theorem parseSide_skipKey (cat : String) :
    ∀ (l : List (String × Option ℚ)) (acc : Cats),
    (∀ q ∈ l, q.1 ≠ cat) →
    lookupKV (l.foldl parseStep acc) cat = lookupKV acc cat := by
  intro l
  induction l with
  | nil => intro acc _; rfl
  | cons q t ih =>
      intro acc h
      rw [List.foldl_cons, ih _ (fun x hx => h x (List.mem_cons_of_mem _ hx)),
        parseStep, lookupKV_updList, if_neg (h q (List.mem_cons_self q t))]

theorem parseSide_noneZero_aux (cat : String) :
    ∀ (l : List (String × Option ℚ)) (acc : Cats),
    (∀ q ∈ l, q.1 = cat → q.2 = none) → cat ∈ keysOf l →
    lookupKV (l.foldl parseStep acc) cat = some (XVal.num 0) := by
  intro l
  induction l with
  | nil => intro acc _ hk; cases hk
  | cons q t ih =>
      intro acc hall hk
      rw [List.foldl_cons]
      by_cases hq : q.1 = cat
      · have hn : q.2 = none := hall q (List.mem_cons_self q t) hq
        by_cases hkt : cat ∈ keysOf t
        · exact ih _ (fun x hx => hall x (List.mem_cons_of_mem _ hx)) hkt
        · rw [parseSide_skipKey cat t _
            (fun x hx hc => hkt (hc ▸ List.mem_map_of_mem Prod.fst hx))]
          rw [parseStep, lookupKV_updList, if_pos hq, hn]
      · simp only [keysOf, List.map_cons, List.mem_cons] at hk
        rcases hk with h | h
        · exact absurd h.symm hq
        · exact ih _ (fun x hx => hall x (List.mem_cons_of_mem _ hx)) h

/-- C2 (amended): in the all-play collection, a category value that fails
to parse is stored as the numeric value 0.0 for its category — not
skipped (the zero-innings penalty may then coerce lower-is-better
categories of a zero-IP team to infinity). -/
theorem unparseable_value_zero (l : List (String × Option ℚ)) (cat : String)
    (hk : cat ∈ keysOf l) (hn : allNoneAt l cat = true) :
    lookupKV (parseSide l) cat = some (XVal.num 0) := by
  apply parseSide_noneZero_aux cat l [] ?_ hk
  intro q hq hqc
  have h2 : ∀ q ∈ l, q.1 ≠ cat ∨ q.2 = none := by
    simpa [allNoneAt, List.all_eq_true] using hn
  rcases h2 q hq with h | h
  · exact absurd hqc h
  · exact h

/-- Witness for the amended C2 statement. -/
theorem unparseable_value_zero_witness :
    (("Home Runs" : String) ∈ keysOf [(("Home Runs" : String), (none : Option ℚ))] ∧
      allNoneAt [(("Home Runs" : String), (none : Option ℚ))] "Home Runs" = true) ∧
    lookupKV (parseSide [(("Home Runs" : String), (none : Option ℚ))]) "Home Runs" =
      some (XVal.num 0) :=
  ⟨⟨by decide, by decide⟩,
    unparseable_value_zero [("Home Runs", none)] "Home Runs" (by decide) (by decide)⟩

/-- C2 counterexample: a category value that fails to parse is compared as
0.0 — here it beats the opponent's −5 and contributes a win for its
category, so it is neither skipped nor contribution-free. -/
theorem unparseable_value_cex :
    simulateList (collectSide [("Home Runs", none), ("Innings Pitched", some 1)])
        (collectSide [("Home Runs", some (-5)), ("Innings Pitched", some 1)]) =
      [("Home Runs", Outcome.win), ("Innings Pitched", Outcome.tie)] := by
  decide

/-! C3: the zero-innings penalty. -/

theorem keysOf_nodup_collectFold (ms : List Matchup) :
    ∀ acc : List (String × Cats), (keysOf acc).Nodup →
    (keysOf (ms.foldl collectStep acc)).Nodup := by
  induction ms with
  | nil => intro acc h; exact h
  | cons m t ih =>
      intro acc h
      rw [List.foldl_cons]
      exact ih _ (keysOf_nodup_updList _ _ _ (keysOf_nodup_updList _ _ _ h))

theorem collect_keys_nodup (p : Period) :
    (keysOf (collect_team_cats p)).Nodup :=
  keysOf_nodup_collectFold p.matchups [] (by simp [keysOf])

theorem collect_values_aux (ms : List Matchup) :
    ∀ (acc : List (String × Cats)),
    (∀ x ∈ acc, ∃ raw, x.2 = collectSide raw) →
    ∀ x ∈ ms.foldl collectStep acc, ∃ raw, x.2 = collectSide raw := by
  induction ms with
  | nil => intro acc h; exact h
  | cons m t ih =>
      intro acc h
      rw [List.foldl_cons]
      apply ih
      intro x hx
      rcases mem_updList _ _ _ x hx with h1 | hx2
      · exact ⟨m.home_cats, by rw [h1]⟩
      · rcases mem_updList _ _ _ x hx2 with h2 | hx3
        · exact ⟨m.away_cats, by rw [h2]⟩
        · exact h x hx3

theorem collect_values (p : Period) :
    ∀ x ∈ collect_team_cats p, ∃ raw, x.2 = collectSide raw :=
  collect_values_aux p.matchups [] (by intro x hx; cases hx)

theorem collectSide_penalty (raw : List (String × Option ℚ))
    (h : getD (collectSide raw) "Innings Pitched" (XVal.num 0) = XVal.num 0) :
    ∀ cat v, isLIB cat = true → (cat, v) ∈ collectSide raw → v = XVal.pinf := by
  intro cat v hlib hmem
  unfold collectSide at h hmem
  by_cases hz : ipZero (parseSide raw) = true
  · rw [applyPenalty, if_pos hz] at hmem
    rcases List.mem_map.1 hmem with ⟨y, _, hfy⟩
    by_cases hyl : isLIB y.1 = true
    · rw [if_pos hyl] at hfy
      cases hfy
      rfl
    · rw [if_neg hyl] at hfy
      rw [hfy] at hyl
      exact absurd hlib hyl
  · rw [applyPenalty, if_neg hz] at h
    exact absurd (by simp [ipZero, h]) hz

theorem pairSims_mem :
    ∀ (l : List (String × Cats)) (e : PairSim), e ∈ pairSims l →
    (e.t1, e.c1) ∈ l ∧ (e.t2, e.c2) ∈ l := by
  intro l
  induction l with
  | nil => intro e he; cases he
  | cons q t ih =>
      obtain ⟨t1, c1⟩ := q
      intro e he
      rcases List.mem_append.1 he with h | h
      · rcases List.mem_map.1 h with ⟨x, hx, rfl⟩
        refine ⟨List.mem_cons_self _ _, List.mem_cons_of_mem _ ?_⟩
        simpa using hx
      · have h2 := ih e h
        exact ⟨List.mem_cons_of_mem _ h2.1, List.mem_cons_of_mem _ h2.2⟩

theorem ltv_ninf_false (x : XVal) : XVal.ltv x XVal.ninf = false := by
  cases x <;> rfl

theorem catCompare_pinf_not_win (v2 : XVal) :
    catCompare true XVal.pinf v2 ≠ Outcome.win := by
  cases v2 <;> simp [catCompare, XVal.negv, XVal.ltv]

theorem catCompare_pinf_not_loss (v1 : XVal) :
    catCompare true v1 XVal.pinf ≠ Outcome.loss := by
  cases v1 <;> simp [catCompare, XVal.negv, XVal.ltv]

theorem outcomeCount_win_zero (c1 c2 : Cats) (cat : String)
    (hlib : isLIB cat = true)
    (hall : ∀ v, (cat, v) ∈ c1 → v = XVal.pinf) :
    outcomeCount (simulateList c1 c2) cat .win = 0 := by
  rw [outcomeCount, List.countP_eq_zero]
  intro q hq
  rcases List.mem_map.1 hq with ⟨y, hy, rfl⟩
  simp only [decide_eq_true_eq, not_and]
  intro hcat
  have hv : y.2 = XVal.pinf := hall y.2 (by rw [← hcat]; simpa using hy)
  rw [hcat, hlib, hv]
  exact catCompare_pinf_not_win _

theorem outcomeCount_loss_zero (c1 c2 : Cats) (cat : String)
    (hlib : isLIB cat = true)
    (hpinf : getD c2 cat (XVal.num 0) = XVal.pinf) :
    outcomeCount (simulateList c1 c2) cat .loss = 0 := by
  rw [outcomeCount, List.countP_eq_zero]
  intro q hq
  rcases List.mem_map.1 hq with ⟨y, _, rfl⟩
  simp only [decide_eq_true_eq, not_and]
  intro hcat
  rw [hcat, hlib, hpinf]
  exact catCompare_pinf_not_loss _

/-- C3 (amended): a team whose parsed "Innings Pitched" is 0 records zero
all-play category wins, against every opponent of the period, in every
lower-is-better category present in its own collected map. (A
lower-is-better category absent from the team's map but present in an
opponent's defaults to 0.0 and can still be won — see the
counterexample.) -/
theorem zero_innings_penalty (p : Period) (t cat : String) (c : Cats)
    (hc : lookupKV (collect_team_cats p) t = some c)
    (hip : getD c "Innings Pitched" (XVal.num 0) = XVal.num 0)
    (hlib : cat ∈ LOWER_IS_BETTER) (hck : cat ∈ keysOf c) :
    periodCatWins p t cat = 0 := by
  have hlibb : isLIB cat = true := by simp [isLIB, hlib]
  have hcm : (t, c) ∈ collect_team_cats p := lookupKV_mem _ _ _ hc
  obtain ⟨raw, hraw⟩ := collect_values p (t, c) hcm
  simp only at hraw
  subst hraw
  have hall : ∀ v, (cat, v) ∈ collectSide raw → v = XVal.pinf :=
    fun v hv => collectSide_penalty raw hip cat v hlibb hv
  have hnd := collect_keys_nodup p
  rw [periodCatWins]
  apply List.sum_eq_zero
  intro x hx
  rcases List.mem_map.1 hx with ⟨e, he, rfl⟩
  obtain ⟨h1, h2⟩ := pairSims_mem (collect_team_cats p) e he
  have hw : (if e.t1 = t then outcomeCount (simulateList e.c1 e.c2) cat .win
      else 0) = 0 := by
    by_cases ht1 : e.t1 = t
    · rw [if_pos ht1]
      have hl1 : lookupKV (collect_team_cats p) e.t1 = some e.c1 :=
        lookupKV_of_mem_nodup _ _ _ hnd h1
      rw [ht1, hc] at hl1
      rw [(Option.some.inj hl1).symm]
      exact outcomeCount_win_zero _ _ _ hlibb hall
    · rw [if_neg ht1]
  have hl : (if e.t2 = t then outcomeCount (simulateList e.c1 e.c2) cat .loss
      else 0) = 0 := by
    by_cases ht2 : e.t2 = t
    · rw [if_pos ht2]
      have hl2 : lookupKV (collect_team_cats p) e.t2 = some e.c2 :=
        lookupKV_of_mem_nodup _ _ _ hnd h2
      rw [ht2, hc] at hl2
      rw [(Option.some.inj hl2).symm]
      exact outcomeCount_loss_zero _ _ _ hlibb
        (getD_of_all _ _ _ _ hck hall)
    · rw [if_neg ht2]
  omega


/-- C3 counterexample: in `pFix0`, team A has Innings Pitched = 0 yet is
credited 2 all-play category wins in the lower-is-better category
"Losses" (absent from A's own map, so A's value defaults to 0.0, beating
the opponents' 5). -/
theorem zero_innings_cex :
    teamIPZero pFix0 "A" = true ∧ "Losses" ∈ LOWER_IS_BETTER ∧
      periodCatWins pFix0 "A" "Losses" = 2 :=
  ⟨by decide, by decide, by decide⟩

/-- Witness for the amended zero-innings theorem. -/
theorem zero_innings_penalty_witness :
    (lookupKV (collect_team_cats pFixIP) "A" = some cFixA ∧
      getD cFixA "Innings Pitched" (XVal.num 0) = XVal.num 0 ∧
      "Earned Run Average" ∈ LOWER_IS_BETTER ∧
      "Earned Run Average" ∈ keysOf cFixA) ∧
    periodCatWins pFixIP "A" "Earned Run Average" = 0 :=
  ⟨⟨by decide, by decide, by decide, by decide⟩,
    zero_innings_penalty pFixIP "A" "Earned Run Average" cFixA
      (by decide) (by decide) (by decide) (by decide)⟩

/-! C5: stable-sort selection lemmas for the luck rating. -/

theorem insertDesc_ne_nil {α K : Type} [LinearOrder K] (key : α → K) (a : α)
    (l : List α) : insertDesc key a l ≠ [] := by
  cases l with
  | nil => simp [insertDesc]
  | cons b bs =>
      rw [insertDesc]
      split_ifs <;> simp

theorem mem_insertDesc {α K : Type} [LinearOrder K] (key : α → K) (a x : α) :
    ∀ l, x ∈ insertDesc key a l ↔ x = a ∨ x ∈ l := by
  intro l
  induction l with
  | nil => simp [insertDesc]
  | cons b bs ih =>
      rw [insertDesc]
      split_ifs with h
      · simp only [List.mem_cons, ih]
        tauto
      · simp only [List.mem_cons]

theorem mem_sortDesc {α K : Type} [LinearOrder K] (key : α → K) (x : α) :
    ∀ l, x ∈ sortDesc key l ↔ x ∈ l := by
  intro l
  induction l with
  | nil => simp [sortDesc]
  | cons a as ih =>
      rw [sortDesc, mem_insertDesc]
      simp only [List.mem_cons, ih]

theorem head?_sortDesc {α K : Type} [LinearOrder K] (key : α → K) :
    ∀ l : List α, (sortDesc key l).head? = firstArgmax key l := by
  intro l
  induction l with
  | nil => rfl
  | cons a as ih =>
      rw [sortDesc, firstArgmax, ← ih]
      cases hs : sortDesc key as with
      | nil => rfl
      | cons b bs =>
          rw [insertDesc]
          split_ifs with h
          · simp [h]
          · simp [h]

theorem lastArgmin_ne_none {α K : Type} [LinearOrder K] (key : α → K)
    (a : α) (as : List α) : lastArgmin key (a :: as) ≠ none := by
  rw [lastArgmin]
  cases lastArgmin key as with
  | none => simp
  | some b =>
      dsimp only
      split_ifs <;> simp

theorem lastArgmin_mem {α K : Type} [LinearOrder K] (key : α → K) :
    ∀ (l : List α) (b : α), lastArgmin key l = some b → b ∈ l := by
  intro l
  induction l with
  | nil => intro b h; cases h
  | cons a as ih =>
      intro b h
      rw [lastArgmin] at h
      cases h0 : lastArgmin key as with
      | none =>
          rw [h0] at h
          cases h
          exact List.mem_cons_self _ _
      | some c =>
          rw [h0] at h
          dsimp only at h
          split_ifs at h with hlt
          · cases h
            exact List.mem_cons_self _ _
          · cases h
            exact List.mem_cons_of_mem _ (ih _ h0)

theorem lastArgmin_min {α K : Type} [LinearOrder K] (key : α → K) :
    ∀ (l : List α) (b : α), lastArgmin key l = some b →
    ∀ x ∈ l, key b ≤ key x := by
  intro l
  induction l with
  | nil => intro b h; cases h
  | cons a as ih =>
      intro b h x hx
      rw [lastArgmin] at h
      cases h0 : lastArgmin key as with
      | none =>
          rw [h0] at h
          cases as with
          | nil =>
              cases h
              rcases List.mem_cons.1 hx with rfl | hx2
              · exact le_refl _
              · cases hx2
          | cons c cs => exact absurd h0 (lastArgmin_ne_none key c cs)
      | some c =>
          rw [h0] at h
          dsimp only at h
          have hmin := ih c h0
          split_ifs at h with hlt
          · cases h
            rcases List.mem_cons.1 hx with rfl | hx2
            · exact le_refl _
            · exact le_trans (le_of_lt hlt) (hmin x hx2)
          · cases h
            rcases List.mem_cons.1 hx with rfl | hx2
            · exact le_of_not_lt hlt
            · exact hmin x hx2

theorem getLast?_cons_of_ne_nil {α : Type} (b : α) (l : List α)
    (h : l ≠ []) : (b :: l).getLast? = l.getLast? := by
  cases l with
  | nil => exact absurd rfl h
  | cons c t => exact List.getLast?_cons_cons

theorem getLast?_insertDesc_big {α K : Type} [LinearOrder K] (key : α → K)
    (a : α) : ∀ (l : List α), (∀ x ∈ l, key a < key x) →
    (insertDesc key a l).getLast? = some a := by
  intro l
  induction l with
  | nil => intro _; rfl
  | cons b bs ih =>
      intro h
      rw [insertDesc, if_pos (h b (List.mem_cons_self b bs)),
        getLast?_cons_of_ne_nil _ _ (insertDesc_ne_nil key a bs)]
      exact ih (fun x hx => h x (List.mem_cons_of_mem _ hx))

theorem getLast?_insertDesc_small {α K : Type} [LinearOrder K] (key : α → K)
    (a : α) : ∀ (l : List α) (x0 : α), x0 ∈ l → ¬ key a < key x0 →
    (insertDesc key a l).getLast? = l.getLast? := by
  intro l
  induction l with
  | nil => intro x0 hx; cases hx
  | cons b bs ih =>
      intro x0 hx0 hle
      rw [insertDesc]
      split_ifs with h
      · rcases List.mem_cons.1 hx0 with rfl | hx2
        · exact absurd h hle
        · rw [getLast?_cons_of_ne_nil _ _ (insertDesc_ne_nil key a bs),
            ih x0 hx2 hle,
            getLast?_cons_of_ne_nil _ _ (List.ne_nil_of_mem hx2)]
      · rw [List.getLast?_cons_cons]

theorem getLast?_sortDesc {α K : Type} [LinearOrder K] (key : α → K) :
    ∀ l : List α, (sortDesc key l).getLast? = lastArgmin key l := by
  intro l
  induction l with
  | nil => rfl
  | cons a as ih =>
      rw [sortDesc, lastArgmin]
      cases h0 : lastArgmin key as with
      | none =>
          cases as with
          | nil => rfl
          | cons c cs => exact absurd h0 (lastArgmin_ne_none key c cs)
      | some b =>
          dsimp only
          have hmin := lastArgmin_min key as b h0
          have hmem := lastArgmin_mem key as b h0
          by_cases hab : key a < key b
          · rw [if_pos hab]
            apply getLast?_insertDesc_big
            intro x hx
            exact lt_of_lt_of_le hab (hmin x ((mem_sortDesc key x as).1 hx))
          · rw [if_neg hab,
              getLast?_insertDesc_small key a (sortDesc key as) b
                ((mem_sortDesc key b as).2 hmem) hab]
            exact ih.trans h0

/-- C5 (amended): the luckiest team is the first in standings order among
those with the greatest `games_back` difference, while the unluckiest is
the LAST in standings order among those with the least (the stable
descending sort puts equal keys in input order, and the code takes its
last element). -/
theorem luck_rating_selection (standings : List SRow)
    (schedule : List Period) (thr : ℕ) :
    luck_rating standings schedule thr =
      (firstArgmax (fun q => q.2.games_back)
        (luckList standings schedule thr),
       lastArgmin (fun q => q.2.games_back)
        (luckList standings schedule thr)) := by
  unfold luck_rating
  rw [head?_sortDesc, getLast?_sortDesc]

/-- C5 counterexample: two teams tie on `games_back`; the code reports the
second of them ("B") as unluckiest, while the spec's first-in-standings
tie-break selects "A". -/
theorem luck_tiebreak_cex :
    ((luck_rating stFix [pFix1] 1).2).map Prod.fst = some "B" ∧
      (firstArgmin (fun q => q.2.games_back)
        (luckList stFix [pFix1] 1)).map Prod.fst = some "A" :=
  ⟨by decide, by decide⟩

/-! C6: which parse failures are skipped and which are fatal. -/

theorem kingsCatFold_not_mem (m : Matchup) (side : Side) (cat : String)
    (hside : getD (sideCatsOf m side) cat none = none) :
    ∀ (cats : List String) (acc : List (String × List (String × ℚ))),
    cat ∉ keysOf acc →
    cat ∉ keysOf (cats.foldl (kingsCatStep m side) acc) := by
  intro cats
  induction cats with
  | nil => intro acc h; exact h
  | cons c ct ih =>
      intro acc h
      rw [List.foldl_cons]
      apply ih
      rw [kingsCatStep]
      cases hv : getD (sideCatsOf m side) c none with
      | none => exact h
      | some v =>
          intro hc
          rcases (mem_keysOf_updList _ _ _ _).1 hc with rfl | hc2
          · rw [hside] at hv
            cases hv
          · exact h hc2

theorem kingsValues_fold_not_mem (m0 : Matchup) (cat : String) :
    ∀ (ms : List Matchup),
    (∀ m ∈ ms, getD m.away_cats cat none = none ∧
      getD m.home_cats cat none = none) →
    ∀ (acc : List (String × List (String × ℚ))), cat ∉ keysOf acc →
    cat ∉ keysOf (ms.foldl
      (fun acc2 m => [Side.away, Side.home].foldl
        (fun acc3 side => m0.categories.foldl (kingsCatStep m side) acc3) acc2)
      acc) := by
  intro ms
  induction ms with
  | nil => intro _ acc h; exact h
  | cons m mt ih =>
      intro hall acc h
      rw [List.foldl_cons]
      apply ih (fun x hx => hall x (List.mem_cons_of_mem _ hx))
      have hm := hall m (List.mem_cons_self m mt)
      show cat ∉ keysOf (m0.categories.foldl (kingsCatStep m Side.home)
        (m0.categories.foldl (kingsCatStep m Side.away) acc))
      exact kingsCatFold_not_mem m Side.home cat hm.2 m0.categories _
        (kingsCatFold_not_mem m Side.away cat hm.1 m0.categories acc h)

theorem kingsValues_not_mem (p : Period) (cat : String)
    (hnone : periodAllNoneAt p cat = true) :
    cat ∉ keysOf (kingsValues p) := by
  have hall : ∀ m ∈ p.matchups, getD m.away_cats cat none = none ∧
      getD m.home_cats cat none = none := by
    simpa [periodAllNoneAt, List.all_eq_true] using hnone
  unfold kingsValues
  cases hm : p.matchups with
  | nil => simp [keysOf]
  | cons m0 ms =>
      rw [hm] at hall
      exact kingsValues_fold_not_mem m0 cat (m0 :: ms) hall []
        (by simp [keysOf])

theorem kings_fold_none (cat : String) :
    ∀ (l : List (String × List (String × ℚ))),
    (∀ cv ∈ l, cv.1 ≠ cat) →
    ∀ (acc : List (String × (String × ℚ))),
    lookupKV (l.foldl
      (fun acc cv => if cv.2.isEmpty then acc
        else match kingOf (isLIB cv.1) cv.2 with
          | some kv => updList acc cv.1 kv
          | none => acc) acc) cat = lookupKV acc cat := by
  intro l
  induction l with
  | nil => intro _ acc; rfl
  | cons cv t ih =>
      intro h acc
      rw [List.foldl_cons, ih (fun x hx => h x (List.mem_cons_of_mem _ hx))]
      by_cases he : cv.2.isEmpty
      · rw [if_pos he]
      · rw [if_neg he]
        cases hk : kingOf (isLIB cv.1) cv.2 with
        | none => rfl
        | some kv =>
            rw [lookupKV_updList, if_neg (h cv (List.mem_cons_self cv t))]

theorem kings_lookup_none (p : Period) (cat : String)
    (h : cat ∉ keysOf (kingsValues p)) :
    lookupKV (category_kings p) cat = none := by
  unfold category_kings
  rw [kings_fold_none cat (kingsValues p)
    (fun cv hcv hc => h (hc ▸ List.mem_map_of_mem Prod.fst hcv)) []]
  rfl

/-- C6 (amended): category values and transaction dates that fail to parse
are skipped per-value and are never fatal, and the transaction-volume
metric returns a list for every period whose `date_range` parses — but an
unparseable `date_range` raises out of it (see the counterexample). -/
theorem unparseable_skipped :
    (∀ (txns : List Txn) (p : Period) (r : Date × Date),
      parseRange p.date_range = some r →
      ∃ l, most_transactions_from_data txns p = Except.ok l) ∧
    (∀ (txns : List Txn) (p : Period) (t : Txn), txnDate t = none →
      most_transactions_from_data (t :: txns) p =
        most_transactions_from_data txns p) ∧
    (∀ (p : Period) (cat : String), periodAllNoneAt p cat = true →
      lookupKV (category_kings p) cat = none) := by
  refine ⟨?_, ?_, ?_⟩
  · intro txns p r hr
    obtain ⟨d1, d2⟩ := r
    unfold most_transactions_from_data
    rw [hr]
    exact ⟨_, rfl⟩
  · intro txns p t ht
    unfold most_transactions_from_data
    cases hp : parseRange p.date_range with
    | none => rfl
    | some r =>
        obtain ⟨d1, d2⟩ := r
        have hc : countTxns d1 d2 (t :: txns) = countTxns d1 d2 txns := by
          simp [countTxns, List.foldl_cons, ht]
        simp only [hc]
  · intro p cat h
    exact kings_lookup_none p cat (kingsValues_not_mem p cat h)

/-- C6 counterexample: a period `date_range` that does not parse makes the
transaction-volume function raise (return no list at all), refuting
"returns a (possibly empty) list for every period date_range string". -/
theorem txn_range_error_cex :
    most_transactions_from_data [] ⟨1, "p", "garbage", []⟩ =
      Except.error () := by
  rfl

/-- Witness for the amended C6 statement. -/
theorem unparseable_skipped_witness :
    (parseRange pFixTx.date_range =
        some (⟨2025, 6, 16⟩, ⟨2025, 6, 22⟩) ∧
      ∃ l, most_transactions_from_data [] pFixTx = Except.ok l) ∧
    (txnDate txBad = none ∧
      most_transactions_from_data [txBad] pFixTx =
        most_transactions_from_data [] pFixTx) ∧
    (periodAllNoneAt pFixKings "Home Runs" = true ∧
      lookupKV (category_kings pFixKings) "Home Runs" = none) :=
  ⟨⟨by decide,
      unparseable_skipped.1 [] pFixTx (⟨2025, 6, 16⟩, ⟨2025, 6, 22⟩)
        (by decide)⟩,
    ⟨by decide, unparseable_skipped.2.1 [] pFixTx txBad (by decide)⟩,
    ⟨by decide, unparseable_skipped.2.2 pFixKings "Home Runs" (by decide)⟩⟩

/-- C7 (code bug): an in-range addition by Foo and an in-range drop by Bar
are both dropped — the rejoined date string `"Wed Jun 18,2025"` lacks the
whitespace the format `"%a %b %d, %Y"` requires after the comma, so every
transaction date fails to parse and the metric returns the empty list
(and the `added` flag is never consulted). -/
theorem txn_volume_code_bug :
    txnDate txFoo = none ∧ txnDate txBar = none ∧
      most_transactions_from_data [txFoo, txBar] pFixTx = Except.ok [] :=
  ⟨by decide, by decide, by rfl⟩

/-- C8 (code bug): the spec's concrete scenario — period
`"(Mon Jun 16, 2025 - Sun Jun 22, 2025)"`, one addition by team "Foo"
dated `"Wed Jun 18, 2025, 10:00am"` — yields the empty list instead of
`[{team: "Foo", count: 1}]`, for the reason above. -/
theorem txn_scenario_code_bug :
    most_transactions_from_data [txFoo] pFixTx = Except.ok [] := by
  rfl

end OneConstant
